import Mathlib

/-!
Verification development for the gitbook_rag ingestion pipeline.

Shallow embedding of the data-ingestion core (src/data_ingestion/):
strings are `List Char`; HTTP fetches, wall-clock timestamps, parsed
dates and parsed floats are abstracted as explicit inputs (an `Option`
fetch result, a `Nat` clock, `Str → Option Nat` parsers); fallible code
returns `Except`.  The BeautifulSoup html.parser / langchain splitter
dependencies are modelled where noted.
-/

set_option maxRecDepth 10000

namespace Gitbook

/-- Strings are modelled as lists of characters. -/
abbrev Str := List Char

/-- Conversion helper for concrete literals. -/
def litS (x : String) : Str := x.data

/-- Python `str.strip()` whitespace set (space, tab, newline, CR, VT, FF). -/
def wsC (c : Char) : Bool :=
  c = ' ' || c = '\t' || c = '\n' || c = '\r' || c = '\x0b' || c = '\x0c'

/-- Left strip: drop leading whitespace. -/
def ltrim (s : Str) : Str := s.dropWhile wsC

/-- Right strip, structurally recursive. -/
def rtrim : Str → Str
  | [] => []
  | c :: s =>
    match rtrim s with
    | [] => if wsC c then [] else [c]
    | r => c :: r

/-- Python `str.strip()`: strips whitespace from both ends. -/
def trimS (s : Str) : Str := rtrim (ltrim s)

/-- Split a string on every occurrence of a separator character
(Python `str.split(sep)` semantics: empty pieces are kept). -/
def splitOnC (sep : Char) : Str → List Str
  | [] => [[]]
  | c :: rest =>
    let r := splitOnC sep rest
    if c = sep then [] :: r
    else
      match r with
      | [] => [[c]]
      | h :: t => (c :: h) :: t

/-- Join pieces with a separator character (inverse of `splitOnC`). -/
def joinC (sep : Char) : List Str → Str
  | [] => []
  | [l] => l
  | l :: ls => l ++ sep :: joinC sep ls

/-- Join pieces with a separator string (Python `sep.join(...)`). -/
def joinSep (sep : Str) : List Str → Str
  | [] => []
  | [l] => l
  | l :: ls => l ++ sep ++ joinSep sep ls

/-- Boolean prefix test. -/
def isPrefC : Str → Str → Bool
  | [], _ => true
  | _ :: _, [] => false
  | a :: as_, b :: bs => a = b && isPrefC as_ bs

/-!  ## ContentCleaner step 1 — directive removal

Model of `re.sub(r"^\s*\{%\s*.*?\s*%\}\s*$", "", md, flags=re.MULTILINE)`
in `clean_markdown_content` (src/data_ingestion/utils.py), following the
regex engine exactly.  With MULTILINE, `^` matches at position 0 and
after every newline, and `$` matches at the end and before any newline;
every `\s` class also matches newlines, so a match can bridge lines.
The engine's backtracking collapses deterministically here:

* the leading `\s*` (`w1`) must be the maximal whitespace run — any
  shorter run leaves a whitespace character where the literal `{` is
  required, and whitespace is never `{`;
* after `{%`, the next `\s*` (`w2`) is likewise taken maximally; a
  shortened `w2` only moves the start of the lazy `.*?` (`mid`) back
  into the same whitespace run, and every completion reachable that way
  is also reachable with `w2` maximal (the following `\s*` absorbs the
  run's remainder), so the shorter branches add nothing;
* `mid` is lazy and `.` does not match newline: it grows one character
  at a time from length 0 and can never absorb a newline; at each
  candidate end, the `\s*` before `%}` (`w3`) is again forced maximal
  (whitespace is never `%`), then the literal `%}` is tested;
* after `%}`, the trailing `\s*` is greedy and `$` backtracks: the
  match consumes the whole remaining whitespace run when the string
  ends there, else it consumes up to (excluding) the run's **last**
  newline; if the run reaches neither the end nor a newline the `$`
  fails and the engine resumes growing `mid`.

`re.sub` scans left to right, replaces each non-overlapping match by
the empty string, and resumes after it; a resume position is a line
start exactly when the last consumed character was a newline. -/

/-- The left directive delimiter, `{%`. -/
def dirL : Str := ['\x7b', '%']

/-- The right directive delimiter, `%}`. -/
def dirR : Str := ['%', '\x7d']

/-- Index of the last newline in a string (used on a whitespace run:
the greedy trailing `\s*` backtracks until `$` holds, i.e. to just
before the run's last newline). -/
def lastNlIdx : Str → Option Nat
  | [] => none
  | c :: r =>
    match lastNlIdx r with
    | some i => some (i + 1)
    | none => if c = '\n' then some 0 else none

/-- The trailing `\s*$` after `%}`: how many further characters the
match consumes, or `none` when `$` cannot be satisfied. -/
def trailEnd (s : Str) : Option Nat :=
  let r := s.takeWhile wsC
  if s.drop r.length = [] then some r.length
  else lastNlIdx r

/-- The lazy `.*?\s*%\}\s*$` search: `u` starts at the current
candidate position of `mid`; returns the number of characters consumed
from there through the end of the match. -/
def midScan : Str → Option Nat
  | [] => none
  | c :: u =>
    let w3 := ((c :: u).takeWhile wsC).length
    match (if isPrefC dirR ((c :: u).drop w3) then
        trailEnd ((c :: u).drop (w3 + 2))
      else none) with
    | some k => some (w3 + 2 + k)
    | none =>
      if c = '\n' then none
      else (midScan u).map (fun n => n + 1)

/-- Attempt the whole pattern at a line start: `\s*` (`w1`), `{%`,
`\s*` (`w2`), then the `midScan` search; returns the match length. -/
def matchDirAt (s : Str) : Option Nat :=
  let w1 := (s.takeWhile wsC).length
  let r1 := s.drop w1
  if isPrefC dirL r1 then
    let w2 := ((r1.drop 2).takeWhile wsC).length
    match midScan ((r1.drop 2).drop w2) with
    | some m => some (w1 + 2 + w2 + m)
    | none => none
  else none

/-- The `re.sub` scan: `skip` counts match characters still to drop,
`atStart` says whether the current position is a line start. -/
def rdGo : Nat → Bool → Str → Str
  | _, _, [] => []
  | 0, atStart, c :: u =>
    match (if atStart then matchDirAt (c :: u) else none) with
    | some l => rdGo (l - 1) (decide (c = '\n')) u
    | none => c :: rdGo 0 (decide (c = '\n')) u
  | Nat.succ k, _, c :: u => rdGo k (decide (c = '\n')) u

/-- Step 1 of `clean_markdown_content`: the directive-stripping
`re.sub`, scanning from position 0 (a line start). -/
def removeDirectiveLines (md : Str) : Str := rdGo 0 true md

/-!  ## HTML model (BeautifulSoup `html.parser` as used by
`convert_html_tables_to_markdown`)

The repository parses meta-markup with BeautifulSoup.  We model the
fragment of its behaviour the function exercises: attribute-free
lowercase tags, a stack tree-builder that ignores unmatched end tags and
leaves unclosed tags open, `find_all` in document order over
descendants, `get_text(sep, strip=True)` joining stripped non-empty
strings, `replace_with` on a table node, and serialisation that escapes
`&`, `<`, `>` in text (the `minimal` formatter). -/

/-- Parser tokens: text runs, start tags, end tags. -/
inductive Tok where
  | text : Str → Tok
  | topen : Str → Tok
  | tclose : Str → Tok
deriving DecidableEq

/-- Tag-name characters: lowercase ASCII letters. -/
def isTagChar (c : Char) : Bool := 'a' ≤ c && c ≤ 'z'

/-- Try to read a tag at the head of the text following a `<`. -/
def parseTagAt (p : Str) : Option (Tok × Str) :=
  match p with
  | '/' :: r =>
    match r.takeWhile isTagChar, r.dropWhile isTagChar with
    | nm :: nms, '>' :: r2 => some (Tok.tclose (nm :: nms), r2)
    | _, _ => none
  | _ =>
    match p.takeWhile isTagChar, p.dropWhile isTagChar with
    | nm :: nms, '>' :: r2 => some (Tok.topen (nm :: nms), r2)
    | _, _ => none

/-- Tokenize one piece that followed a `<` in the input. -/
def tokenizePiece (p : Str) : List Tok :=
  match parseTagAt p with
  | some (tok, rest) => tok :: (if rest = [] then [] else [Tok.text rest])
  | none => [Tok.text ('<' :: p)]

/-- Tokenize an HTML fragment by splitting at `<`. -/
def tokenize (s : Str) : List Tok :=
  match splitOnC '<' s with
  | [] => []
  | t0 :: ps =>
    (if t0 = [] then [] else [Tok.text t0]) ++ ps.flatMap tokenizePiece

/-- Merge adjacent text tokens (html.parser buffers character data). -/
def mergeTextToks : List Tok → List Tok
  | [] => []
  | Tok.text a :: ts =>
    match mergeTextToks ts with
    | Tok.text b :: us => Tok.text (a ++ b) :: us
    | us => Tok.text a :: us
  | t :: ts => t :: mergeTextToks ts

/-- Document tree: text nodes and elements. -/
inductive Node where
  | text : Str → Node
  | elem : Str → List Node → Node

/-- A tree-builder stack frame: open tag name and its children, newest first. -/
abbrev Frame := Str × List Node
abbrev Stack := List Frame

/-- Attach a completed node to the innermost open element. -/
def pushNode (n : Node) : Stack → Stack
  | [] => []
  | (t, kids) :: st => (t, n :: kids) :: st

/-- Is a tag currently open on the stack? -/
def stackHas (tag : Str) : Stack → Bool
  | [] => false
  | (t, _) :: st => t = tag || stackHas tag st

/-- Close frames down to (and including) the matching open tag, the
popped frames becoming completed nodes (`_popToTag`, inclusive). -/
def closeGo (tag : Str) (carry : List Node) : Stack → Stack
  | [] => []
  | (t, kids) :: st =>
    let kids2 := carry ++ kids
    if t = tag then pushNode (Node.elem t kids2.reverse) st
    else closeGo tag [Node.elem t kids2.reverse] st

/-- Handle an end tag: ignored when no matching open tag exists. -/
def closeTag (tag : Str) (st : Stack) : Stack :=
  if stackHas tag st then closeGo tag [] st else st

/-- At end of input, unclosed elements keep their children; the bottom
(sentinel) frame's children are the document nodes. -/
def finishGo (carry : List Node) : Stack → List Node
  | [] => carry.reverse
  | (t, kids) :: st =>
    match st with
    | [] => (carry ++ kids).reverse
    | _ :: _ => finishGo [Node.elem t (carry ++ kids).reverse] st

/-- Run the tree builder over the token stream. -/
def buildToks : List Tok → Stack → List Node
  | [], st => finishGo [] st
  | Tok.text s :: ts, st => buildToks ts (pushNode (Node.text s) st)
  | Tok.topen t :: ts, st => buildToks ts ((t, []) :: st)
  | Tok.tclose t :: ts, st => buildToks ts (closeTag t st)

/-- Parse an HTML fragment into document nodes. -/
def parseHtml (s : Str) : List Node :=
  buildToks (mergeTextToks (tokenize s)) [(litS "[document]", [])]

mutual
/-- Text-node strings of one node, document order. -/
def collectStrsN : Node → List Str
  | Node.text t => [t]
  | Node.elem _ kids => collectStrs kids

/-- All text-node strings under a list of nodes, document order. -/
def collectStrs : List Node → List Str
  | [] => []
  | n :: ns => collectStrsN n ++ collectStrs ns
end

mutual
/-- Matching elements within one node (itself included), document
order. -/
def findAllN (tag : Str) : Node → List Node
  | Node.text _ => []
  | Node.elem t kids =>
    (if t = tag then [Node.elem t kids] else []) ++ findAllKids tag kids

/-- All descendant elements with a given tag, document order
(`find_all(tag)` on an element searches descendants only). -/
def findAllKids (tag : Str) : List Node → List Node
  | [] => []
  | n :: ns => findAllN tag n ++ findAllKids tag ns
end

/-- Descendant search from a single node. -/
def findAllIn (tag : Str) (n : Node) : List Node :=
  match n with
  | Node.text _ => []
  | Node.elem _ kids => findAllKids tag kids

/-- `get_text(sep, strip=True)`: strip every descendant string, drop the
ones that become empty, join the rest with the separator. -/
def getTextSep (sep : Str) (n : Node) : Str :=
  joinSep sep (((collectStrs [n]).map trimS).filter (fun x => !x.isEmpty))

/-- Header cells of a table: `th` descendants, `get_text(strip=True)`. -/
def tableHeaders (tbl : Node) : List Str :=
  (findAllIn (litS "th") tbl).map (getTextSep [])

/-- Data rows: for each `tr` descendant, its `td` cells'
`get_text(" ", strip=True)`; rows with no data cells are dropped. -/
def tableRows (tbl : Node) : List (List Str) :=
  (findAllIn (litS "tr") tbl).filterMap (fun tr =>
    let cells := (findAllIn (litS "td") tr).map (getTextSep (litS " "))
    if cells.isEmpty then none else some cells)

/-- The Markdown lines built for one table. -/
def tableLines (headers : List Str) (rows : List (List Str)) : List Str :=
  [litS "**Table:**"] ++
    (if headers.isEmpty then []
     else [joinSep (litS " | ") headers,
           joinSep (litS " | ") (headers.map (fun _ => litS "---"))]) ++
    rows.map (fun cs => joinSep (litS " | ") cs)

/-- The Markdown text replacing one table element. -/
def convertTable (tbl : Node) : Str :=
  joinC '\n' (tableLines (tableHeaders tbl) (tableRows tbl))

mutual
/-- Replace every outermost `table` element by its Markdown rendering,
wrapped in newlines (`table.replace_with("\n" + table_md + "\n")`). -/
def convertNode : Node → Node
  | Node.text t => Node.text t
  | Node.elem t kids =>
    if t = litS "table" then
      Node.text ('\n' :: (convertTable (Node.elem t kids) ++ ['\n']))
    else Node.elem t (convertNodes kids)

def convertNodes : List Node → List Node
  | [] => []
  | n :: ns => convertNode n :: convertNodes ns
end

/-- Serialisation escape for text nodes (`minimal` formatter). -/
def escapeChar (c : Char) : Str :=
  if c = '&' then litS "&amp;"
  else if c = '<' then litS "&lt;"
  else if c = '>' then litS "&gt;"
  else [c]

/-- Escape a text run for output. -/
def escapeText (t : Str) : Str := t.flatMap escapeChar

mutual
/-- Render a node back to text (`str(soup)`). -/
def render : Node → Str
  | Node.text t => escapeText t
  | Node.elem t kids =>
    ('<' :: t ++ ['>']) ++ renderList kids ++ ('<' :: '/' :: t ++ ['>'])

def renderList : List Node → Str
  | [] => []
  | n :: ns => render n ++ renderList ns
end

/-- Model of `convert_html_tables_to_markdown`
(src/data_ingestion/utils.py): parse, replace each table with its
Markdown text, serialise. -/
def convert_html_tables_to_markdown (md : Str) : Str :=
  renderList (convertNodes (parseHtml md))

/-- Model of `clean_markdown_content` (src/data_ingestion/utils.py):
strip directive spans, convert HTML tables, strip the result. -/
def clean_markdown_content (md : Str) : Str :=
  trimS (convert_html_tables_to_markdown (removeDirectiveLines md))

/-!  ## Page model (src/data_ingestion/models.py)

Datetimes (`lastmod`, `scraped_at`) and the float `priority` never have
their values computed with inside the core, so both are abstracted to
`Nat` codes; the wall clock is an explicit `now` argument and the HTTP
fetch of `Page.load` is an explicit `Option Str` outcome (`none` covers
every failure caught by the `except` block: network error, non-2xx
status via `raise_for_status`, timeout). -/

structure Page where
  url : Str
  md_url : Str
  title : Option Str := none
  md : Option Str := none
  lastmod : Option Nat := none
  priority : Option Nat := none
  /-- source field name: `section`, a Lean keyword. -/
  sect : Option Str := none
  source : Str := litS "llms.txt"
  loaded : Bool := false
  scraped_at : Option Nat := none
deriving DecidableEq

/-- Apply the optional `clean_fn` to a fetched body. -/
def applyClean (clean_fn : Option (Str → Str)) (b : Str) : Str :=
  match clean_fn with
  | some f => f b
  | none => b

/-- Model of `Page.load`: on a successful fetch, set `md` to the
(cleaned) body, `loaded := true`, `scraped_at := now` and return `true`;
on any failure, set `loaded := false` (touching no other field) and
return `false`. -/
def pageLoad (p : Page) (fetched : Option Str)
    (clean_fn : Option (Str → Str)) (now : Nat) : Page × Bool :=
  match fetched with
  | some body =>
    let content := applyClean clean_fn body
    ({ p with md := some content, loaded := true, scraped_at := some now },
      true)
  | none => ({ p with loaded := false }, false)

/-- Decimal rendering of a `Nat` (stand-in for Python `str(...)` /
`isoformat()` of the abstracted numeric fields). -/
def natStr (n : Nat) : Str := Nat.toDigits 10 n

/-- Python `str(x)` of an optional string field (`None` when absent). -/
def optStr : Option Str → Str
  | some s => s
  | none => litS "None"

/-- Rendering of an optional numeric field. -/
def optNatStr : Option Nat → Str
  | some n => natStr n
  | none => litS "None"

/-- Model of `Page.to_metadata`: the metadata dict as an ordered
key/value list (Python formatting of the abstracted numeric fields is
represented by their decimal rendering). -/
def to_metadata (p : Page) : List (Str × Str) :=
  [(litS "url", p.url),
   (litS "md_url", p.md_url),
   (litS "title", optStr p.title),
   (litS "section", optStr p.sect),
   (litS "source", p.source),
   (litS "priority", optNatStr p.priority),
   (litS "lastmod", optNatStr p.lastmod),
   (litS "scraped_at", optNatStr p.scraped_at),
   (litS "loaded", if p.loaded then litS "True" else litS "False")]

/-!  ## DocScraper (src/data_ingestion/scrapper.py) -/

/-- The loop guard `if limit and i >= limit: break`: Python treats both
`None` and `0` as falsy, so `limit=0` never trips the guard. -/
def limitHit (limit : Option Nat) (i : Nat) : Bool :=
  match limit with
  | none => false
  | some l => if l = 0 then false else decide (l ≤ i)

/-- The `for i, page in enumerate(pages)` loop of `DocScraper.scrape`:
pages after a `break` are returned untouched.  `fetch i` is the HTTP
outcome for the i-th page. -/
def scrapeGo (fetch : Nat → Option Str) (clean_fn : Option (Str → Str))
    (now : Nat) (limit : Option Nat) (i : Nat) : List Page → List Page
  | [] => []
  | p :: ps =>
    if limitHit limit i then p :: ps
    else (pageLoad p (fetch i) clean_fn now).1 ::
      scrapeGo fetch clean_fn now limit (i + 1) ps

/-- Model of `DocScraper.scrape`: fetch markdown for each page (up to
`limit`), returning the same page collection with per-page mutations. -/
def scrape (fetch : Nat → Option Str) (clean_fn : Option (Str → Str))
    (now : Nat) (pages : List Page) (limit : Option Nat) : List Page :=
  scrapeGo fetch clean_fn now limit 0 pages

/-!  ## MarkdownChunker (src/data_ingestion/chunker.py)

The two langchain splitters (`MarkdownHeaderTextSplitter`,
`RecursiveCharacterTextSplitter.from_tiktoken_encoder`) are external
library code, so `chunk` is parameterised over them; concrete instances
modelled from the spec are given below.  A chunk's metadata dict is
modelled as the page-metadata key/value list plus a dedicated
`chunk_index` field (no `to_metadata` key collides with
`"chunk_index"`, so keeping it as a separate field is faithful). -/

structure Doc where
  page_content : Str
  metadata : List (Str × Str) := []
  chunk_index : Option Nat := none
deriving DecidableEq

/-- Python `dict` update of one key: replace in place or append. -/
def upsertKV (d : List (Str × Str)) (kv : Str × Str) : List (Str × Str) :=
  if (d.lookup kv.1).isSome then
    d.map (fun e => if e.1 = kv.1 then kv else e)
  else d ++ [kv]

/-- `chunk.metadata.update(metadata or {})`. -/
def updMeta (d upd : List (Str × Str)) : List (Str × Str) :=
  upd.foldl upsertKV d

/-- Model of `MarkdownChunker.chunk`: empty text yields no chunks
(warning logged); otherwise each Stage-1 segment is split by the
recursive splitter and the sub-chunks are tagged with the page metadata
plus `chunk_index := i`, where `i` enumerates sub-chunks *within the
segment*. -/
def chunk (header_split : Str → List Doc) (recursive_split : Doc → List Doc)
    (text : Str) (metadata : List (Str × Str)) : List Doc :=
  if text = [] then []
  else
    (header_split text).flatMap (fun seg =>
      ((recursive_split seg).enum).map (fun ic =>
        { ic.2 with
          metadata := updMeta ic.2.metadata metadata,
          chunk_index := some ic.1 }))

/-- Is the page's markdown present and non-empty
(`if not getattr(page, "md", None): continue`)? -/
def mdOk (p : Page) : Bool :=
  match p.md with
  | none => false
  | some m => !m.isEmpty

/-- The page's markdown text, defaulting to empty. -/
def mdText (p : Page) : Str := (p.md).getD []

/-- The `for i, page in enumerate(pages)` loop of
`MarkdownChunker.chunk_pages`. -/
def chunkPagesGo (hs : Str → List Doc) (rs : Doc → List Doc)
    (limit : Option Nat) (i : Nat) : List Page → List Doc
  | [] => []
  | p :: ps =>
    if limitHit limit i then []
    else
      (if mdOk p then chunk hs rs (mdText p) (to_metadata p) else []) ++
        chunkPagesGo hs rs limit (i + 1) ps

/-- Model of `MarkdownChunker.chunk_pages`: chunk every page whose `md`
is present and non-empty, optionally capped at `limit` pages. -/
def chunk_pages (hs : Str → List Doc) (rs : Doc → List Doc)
    (pages : List Page) (limit : Option Nat) : List Doc :=
  chunkPagesGo hs rs limit 0 pages

/-- Heading detection for the Stage-1 splitter model: levels 1–3 with a
trailing space, as configured by `headers_to_split_on`. -/
def headingOf (l : Str) : Option (Nat × Str) :=
  if isPrefC (litS "# ") l then some (1, l.drop 2)
  else if isPrefC (litS "## ") l then some (2, l.drop 3)
  else if isPrefC (litS "### ") l then some (3, l.drop 4)
  else none

/-- Metadata key for a heading level. -/
def headerKey : Nat → Str
  | 1 => litS "Header_1"
  | 2 => litS "Header_2"
  | _ => litS "Header_3"

/-- Replace the heading path at and below a level. -/
def updPath (path : List (Nat × Str)) (lvl : Nat) (title : Str) :
    List (Nat × Str) :=
  path.filter (fun e => e.1 < lvl) ++ [(lvl, title)]

/-- Stage-1 splitter state: active heading path, current segment lines,
the path the current segment carries, and emitted segments. -/
structure HSState where
  path : List (Nat × Str) := []
  cur : List Str := []
  curPath : List (Nat × Str) := []
  out : List Doc := []

/-- Emit the current segment (if any). -/
def flushSeg (st : HSState) : List Doc :=
  if st.cur.isEmpty then st.out
  else st.out ++
    [{ page_content := joinC '\n' st.cur,
       metadata := st.curPath.map (fun e => (headerKey e.1, e.2)) }]

/-- One line of the Stage-1 split. -/
def headerStep (st : HSState) (l : Str) : HSState :=
  match headingOf l with
  | some (lvl, title) =>
    let out := flushSeg st
    let path := updPath st.path lvl title
    { path := path, cur := [l], curPath := path, out := out }
  | none => { st with cur := st.cur ++ [l] }

/-- Modelled from the spec: the Stage-1 structural split (the external
langchain `MarkdownHeaderTextSplitter`, absent from src/) — split the
document on markdown heading boundaries (levels 1–3), keep heading text
in each resulting segment (`strip_headers=False`), attach the heading
path as segment metadata; a document with no headings is one implicit
segment. -/
def headerSplit (text : Str) : List Doc :=
  flushSeg ((splitOnC '\n' text).foldl headerStep {})

/-- Modelled from the spec: the Stage-2 bounded split (the external
langchain `RecursiveCharacterTextSplitter`, absent from src/) returns a
Stage-1 segment whose token-aware size is within `chunk_size` as a
single window; this instance models its behaviour on such short
segments. -/
def recSplitSingle (d : Doc) : List Doc := [d]

/-!  ## Sitemap metadata extraction (src/data_ingestion/utils.py)

`extract_metadata_from_sitemap` is embedded over explicit outcomes of
its effectful dependencies: `fetched` is the `safe_request` result
(`none` = fetch failed, already logged and absorbed), `parsed` the
outcome of `ET.fromstring` (`Except.error` = an XML `ParseError`, which
the source does **not** catch), and `parseDate` / `parseFloat` the
total models of `dateutil.parser.parse` / `float(...)` (returning
`none` exactly when the Python call raises; `float` on a `str` can only
raise `ValueError`, which the source catches).  An entry's `loc` field
is `none` when `url_tag.find("loc")` returned `None` (then
`loc_elem.text` raises `AttributeError`), `some none` when the element
has falsy text, `some (some t)` when its text is `t`. -/

structure SiteMeta where
  lastmod : Option Nat := none
  priority : Option Nat := none
deriving DecidableEq

structure UrlEntry where
  loc : Option (Option Str) := none
  lastmodRaw : Option Str := none
  priorityRaw : Option Str := none
deriving DecidableEq

/-- Python dict insertion `meta[loc] = ...`: overwrite or append. -/
def upsertMeta (d : List (Str × SiteMeta)) (kv : Str × SiteMeta) :
    List (Str × SiteMeta) :=
  if (d.lookup kv.1).isSome then
    d.map (fun e => if e.1 = kv.1 then kv else e)
  else d ++ [kv]

/-- Processing of one `<url>` entry of the sitemap. -/
def sitemapEntryStep (parseDate parseFloat : Str → Option Nat)
    (acc : List (Str × SiteMeta)) (e : UrlEntry) :
    Except Str (List (Str × SiteMeta)) :=
  match e.loc with
  | none => Except.error (litS "AttributeError")
  | some none => Except.ok acc
  | some (some t) =>
    if t = [] then Except.ok acc
    else
      let lm := match e.lastmodRaw with
        | some s => if s = [] then none else parseDate (trimS s)
        | none => none
      let pr := match e.priorityRaw with
        | some s => if s = [] then none else parseFloat (trimS s)
        | none => none
      Except.ok (upsertMeta acc (trimS t, ⟨lm, pr⟩))

/-- Model of `extract_metadata_from_sitemap`. -/
def extract_metadata_from_sitemap (fetched : Option Str)
    (parsed : Except Str (List UrlEntry))
    (parseDate parseFloat : Str → Option Nat) :
    Except Str (List (Str × SiteMeta)) :=
  match fetched with
  | none => Except.ok []
  | some text =>
    if text = [] then Except.ok []
    else
      match parsed with
      | Except.error e => Except.error e
      | Except.ok entries =>
        entries.foldlM (sitemapEntryStep parseDate parseFloat) []

/-- Model of `merge_pages_with_sitemap` (src/data_ingestion/utils.py):
a left join — overwrite `lastmod`/`priority` for pages whose URL is a
key of the mapping, leave the rest untouched. -/
def merge_pages_with_sitemap (pages : List Page)
    (meta : List (Str × SiteMeta)) : List Page :=
  pages.map (fun p =>
    match meta.lookup p.url with
    | some m => { p with lastmod := m.lastmod, priority := m.priority }
    | none => p)

/-- The Page invariant as the spec states it: `loaded=true` implies the
markdown body is non-empty and the fetch timestamp is set;
`loaded=false` implies the markdown body is absent. -/
def pageInvariant (p : Page) : Prop :=
  (p.loaded = true → (p.md ≠ none ∧ p.md ≠ some []) ∧ p.scraped_at ≠ none) ∧
  (p.loaded = false → p.md = none)

instance (p : Page) : Decidable (pageInvariant p) := by
  unfold pageInvariant; infer_instance

/-- The chunk-index column of a chunk sequence. -/
def chunkIndexList (ds : List Doc) : List (Option Nat) :=
  ds.map (fun d => d.chunk_index)

/-- The claim's page-wide contiguity property: the indices of the
returned chunk sequence are exactly `0..n-1` in emission order. -/
def contiguousIndexes (ds : List Doc) : Prop :=
  chunkIndexList ds = (List.range ds.length).map some

instance (ds : List Doc) : Decidable (contiguousIndexes ds) := by
  unfold contiguousIndexes; infer_instance

/-- Substring test (for `no <table> tag remains`). -/
def containsSub (needle : Str) : Str → Bool
  | [] => needle.isEmpty
  | c :: rest => isPrefC needle (c :: rest) || containsSub needle rest

/-- The characters given special treatment by the HTML parse/serialise
round trip: `<`, `>`, `&`. -/
def isHtmlSpecial (c : Char) : Bool := c = '<' || c = '>' || c = '&'

/-- Markdown text free of HTML-special characters (never parsed as
markup and never entity-escaped on output). -/
def noHtml (s : Str) : Bool := s.all (fun c => !isHtmlSpecial c)

/-- Markdown text free of the directive-opening brace character, so no
part of it can ever match the directive pattern. -/
def noBrace (s : Str) : Bool := s.all (fun c => !decide (c = '\x7b'))

/-!  ## Concrete fixtures used by counterexamples and witnesses -/

/-- A page that was loaded successfully earlier. -/
def pPrev : Page :=
  { url := litS "https://x/a", md_url := litS "https://x/a.md",
    md := some (litS "old"), loaded := true, scraped_at := some 5 }

/-- A freshly discovered page (never loaded). -/
def pFresh : Page :=
  { url := litS "https://x/b", md_url := litS "https://x/b.md" }

/-- A page whose re-fetch failed: `loaded=false` but `md` retained. -/
def pStale : Page :=
  { url := litS "https://x/c", md_url := litS "https://x/c.md",
    md := some (litS "stale body"), loaded := false }

/-- Three fresh pages for the fetch-isolation scenario. -/
def pages3 : List Page :=
  [{ url := litS "https://x/1", md_url := litS "https://x/1.md" },
   { url := litS "https://x/2", md_url := litS "https://x/2.md" },
   { url := litS "https://x/3", md_url := litS "https://x/3.md" }]

/-- Fetch outcomes: the second of three pages fails (network error). -/
def fetchFail1 : Nat → Option Str :=
  fun i => if i = 1 then none else some (litS "# T" ++ '\n' :: litS "body")

/-- Fetch outcomes: every page succeeds. -/
def fetchAllOk : Nat → Option Str :=
  fun _ => some (litS "# T" ++ '\n' :: litS "body")

/-- A two-heading markdown document (two Stage-1 segments). -/
def doc2seg : Str :=
  litS "# A" ++ '\n' :: litS "x" ++ '\n' :: litS "# B" ++ '\n' :: litS "y"

/-- Markdown whose only HTML table has a directive-only cell text. -/
def cx4 : Str :=
  litS "<table><tr><td>" ++ dirL ++ litS " hint " ++ dirR ++
    litS "</td></tr></table>"

/-- HTML-free, brace-free markdown with surrounding whitespace
(witness input for the amended idempotence claim). -/
def w4 : Str := litS "  a" ++ '\n' :: litS " b  "

/-- An HTML-free input on which the regex's newline bridging makes
`clean` non-idempotent: the first pass removes only the inner
directive, and the second pass deletes the whole whitespace-bridged
directive span that removal exposed. -/
def bx : Str :=
  dirL ++ '\n' :: 'a' :: '\n' :: dirL ++ litS " z " ++ dirR ++
    '\n' :: dirR

/-- The end-to-end table scenario: 2 header cells, 2 data rows. -/
def tblIn : Str :=
  litS "<table><tr><th>A</th><th>B</th></tr>" ++
    litS "<tr><td>1</td><td>2</td></tr>" ++
    litS "<tr><td>3</td><td>4</td></tr></table>"

/-- Expected cleaned output for `tblIn`. -/
def tblOut : Str :=
  litS "**Table:**" ++ '\n' :: litS "A | B" ++ '\n' :: litS "--- | ---" ++
    '\n' :: litS "1 | 2" ++ '\n' :: litS "3 | 4"

/-!  # Theorems -/

/-!  ## Shared lemmas about the scraper and chunker loops -/

theorem limitHit_none (i : Nat) : limitHit none i = false := rfl

theorem limitHit_zero (i : Nat) : limitHit (some 0) i = false := by
  simp [limitHit]

theorem limitHit_pos (l i : Nat) (hl : 1 ≤ l) :
    limitHit (some l) i = decide (l ≤ i) := by
  simp [limitHit, Nat.pos_iff_ne_zero.mp hl]

theorem scrapeGo_none_getElem (fetch : Nat → Option Str)
    (c : Option (Str → Str)) (now : Nat) :
    ∀ (ps : List Page) (i j : Nat),
      (scrapeGo fetch c now none i ps)[j]? =
        (ps[j]?).map (fun p => (pageLoad p (fetch (i + j)) c now).1) := by
  intro ps
  induction ps with
  | nil => intro i j; simp [scrapeGo]
  | cons p ps ih =>
    intro i j
    rw [scrapeGo]
    simp only [limitHit_none, if_false, Bool.false_eq_true]
    cases j with
    | zero => simp
    | succ j =>
      simp only [List.getElem?_cons_succ]
      rw [ih (i + 1) j]
      have : i + 1 + j = i + (j + 1) := by omega
      rw [this]

theorem scrapeGo_length (fetch : Nat → Option Str) (c : Option (Str → Str))
    (now : Nat) (limit : Option Nat) :
    ∀ (ps : List Page) (i : Nat),
      (scrapeGo fetch c now limit i ps).length = ps.length := by
  intro ps
  induction ps with
  | nil => intro i; rfl
  | cons p ps ih =>
    intro i
    rw [scrapeGo]
    by_cases h : limitHit limit i = true
    · simp [h]
    · simp only [Bool.not_eq_true] at h
      simp [h, ih (i + 1)]

theorem scrapeGo_break (fetch : Nat → Option Str) (c : Option (Str → Str))
    (now : Nat) (l : Nat) (hl : 1 ≤ l) :
    ∀ (ps : List Page) (i : Nat), l ≤ i →
      scrapeGo fetch c now (some l) i ps = ps := by
  intro ps
  induction ps with
  | nil => intro i _; rfl
  | cons p ps _ =>
    intro i hi
    rw [scrapeGo, limitHit_pos l i hl]
    simp [hi]

theorem scrapeGo_cap (fetch : Nat → Option Str) (c : Option (Str → Str))
    (now : Nat) (l : Nat) (hl : 1 ≤ l) :
    ∀ (ps : List Page) (i : Nat), i < l →
      scrapeGo fetch c now (some l) i ps =
        scrapeGo fetch c now none i (ps.take (l - i)) ++ ps.drop (l - i) := by
  intro ps
  induction ps with
  | nil => intro i _; simp [scrapeGo]
  | cons p ps ih =>
    intro i hi
    have hg : decide (l ≤ i) = false := decide_eq_false (Nat.not_le.mpr hi)
    rw [scrapeGo, limitHit_pos l i hl, hg]
    have hk : l - i = (l - (i + 1)) + 1 := by omega
    rw [hk]
    simp only [Bool.false_eq_true, if_false, List.take_succ_cons,
      List.drop_succ_cons]
    rw [scrapeGo]
    simp only [limitHit_none, Bool.false_eq_true, if_false, List.cons_append]
    by_cases h2 : i + 1 < l
    · rw [ih (i + 1) h2]
    · have he : l = i + 1 := by omega
      subst he
      rw [scrapeGo_break fetch c now (i + 1) hl ps (i + 1) (Nat.le_refl _),
        Nat.sub_self]
      rfl

theorem chunkPagesGo_none_unfold (hs : Str → List Doc) (rs : Doc → List Doc) :
    ∀ (ps : List Page) (i : Nat),
      chunkPagesGo hs rs none i ps =
        ps.flatMap (fun p =>
          if mdOk p then chunk hs rs (mdText p) (to_metadata p) else []) := by
  intro ps
  induction ps with
  | nil => intro i; rfl
  | cons p ps ih =>
    intro i
    rw [chunkPagesGo]
    simp only [limitHit_none, Bool.false_eq_true, if_false]
    rw [ih (i + 1), List.flatMap_cons]

theorem chunkPagesGo_break (hs : Str → List Doc) (rs : Doc → List Doc)
    (l : Nat) (hl : 1 ≤ l) :
    ∀ (ps : List Page) (i : Nat), l ≤ i →
      chunkPagesGo hs rs (some l) i ps = [] := by
  intro ps
  induction ps with
  | nil => intro i _; rfl
  | cons p ps _ =>
    intro i hi
    rw [chunkPagesGo, limitHit_pos l i hl]
    simp [hi]

theorem chunkPagesGo_cap (hs : Str → List Doc) (rs : Doc → List Doc)
    (l : Nat) (hl : 1 ≤ l) :
    ∀ (ps : List Page) (i : Nat), i < l →
      chunkPagesGo hs rs (some l) i ps =
        chunkPagesGo hs rs none i (ps.take (l - i)) := by
  intro ps
  induction ps with
  | nil => intro i _; simp [chunkPagesGo]
  | cons p ps ih =>
    intro i hi
    have hg : decide (l ≤ i) = false := decide_eq_false (Nat.not_le.mpr hi)
    rw [chunkPagesGo, limitHit_pos l i hl, hg]
    have hk : l - i = (l - (i + 1)) + 1 := by omega
    rw [hk]
    simp only [Bool.false_eq_true, if_false, List.take_succ_cons]
    rw [chunkPagesGo]
    simp only [limitHit_none, Bool.false_eq_true, if_false]
    by_cases h2 : i + 1 < l
    · rw [ih (i + 1) h2]
    · have he : l = i + 1 := by omega
      subst he
      rw [chunkPagesGo_break hs rs (i + 1) hl ps (i + 1) (Nat.le_refl _),
        Nat.sub_self]
      rfl

/-!  ## C10 — failed load only flips `loaded` -/

/-- C10: when `Page.load` fails for any reason, the only field it
changes is `loaded` (set to `false`) and it returns `false`: `md`,
`scraped_at` and every other field keep their previous values, so a
previously loaded page whose re-fetch fails retains its old markdown
body and fetch timestamp. -/
theorem c10_load_failure_frame (p : Page) (c : Option (Str → Str))
    (now : Nat) :
    (pageLoad p none c now).2 = false ∧
    (pageLoad p none c now).1.loaded = false ∧
    (pageLoad p none c now).1.md = p.md ∧
    (pageLoad p none c now).1.scraped_at = p.scraped_at ∧
    (pageLoad p none c now).1.url = p.url ∧
    (pageLoad p none c now).1.md_url = p.md_url ∧
    (pageLoad p none c now).1.title = p.title ∧
    (pageLoad p none c now).1.lastmod = p.lastmod ∧
    (pageLoad p none c now).1.priority = p.priority ∧
    (pageLoad p none c now).1.sect = p.sect ∧
    (pageLoad p none c now).1.source = p.source :=
  ⟨rfl, rfl, rfl, rfl, rfl, rfl, rfl, rfl, rfl, rfl, rfl⟩

/-!  ## C2 — the Page invariant after `load` -/

/-- C2 counterexample: the spec's Page invariant fails after a `load`
outcome — a failed re-fetch of a previously loaded page leaves
`loaded=false` with `md` still present, and a successful fetch of an
empty body gives `loaded=true` with an empty `md`. -/
theorem c2_counterexample :
    ¬ pageInvariant (pageLoad pPrev none none 7).1 ∧
    (pageLoad pPrev none none 7).1.loaded = false ∧
    (pageLoad pPrev none none 7).1.md = some (litS "old") ∧
    ¬ pageInvariant (pageLoad pFresh (some []) none 7).1 ∧
    (pageLoad pFresh (some []) none 7).1.loaded = true ∧
    (pageLoad pFresh (some []) none 7).1.md = some [] :=
  ⟨by decide, rfl, rfl, by decide, rfl, rfl⟩

/-- C2 (amended): `Page.load` on success sets `loaded=true`, `md` to
the cleaned fetched body (which may be empty) and `scraped_at` to the
fetch time; on failure it sets `loaded=false` and leaves `md` and
`scraped_at` unchanged.  The spec's invariant therefore holds after a
failed load whenever the page had never been loaded (`md` absent), and
after a successful load whenever the cleaned body is non-empty. -/
theorem c2_amended (p : Page) (c : Option (Str → Str)) (now : Nat) :
    (∀ b, (pageLoad p (some b) c now).1.loaded = true ∧
      (pageLoad p (some b) c now).1.md = some (applyClean c b) ∧
      (pageLoad p (some b) c now).1.scraped_at = some now) ∧
    ((pageLoad p none c now).1.loaded = false ∧
      (pageLoad p none c now).1.md = p.md ∧
      (pageLoad p none c now).1.scraped_at = p.scraped_at) ∧
    (p.md = none → pageInvariant (pageLoad p none c now).1) ∧
    (∀ b, applyClean c b ≠ [] →
      pageInvariant (pageLoad p (some b) c now).1) := by
  refine ⟨fun b => ⟨rfl, rfl, rfl⟩, ⟨rfl, rfl, rfl⟩, ?_, ?_⟩
  · intro h
    constructor
    · intro hl
      simp [pageLoad] at hl
    · intro _
      exact h
  · intro b hb
    constructor
    · intro _
      refine ⟨⟨?_, ?_⟩, ?_⟩
      · intro hmd
        simp [pageLoad] at hmd
      · intro hmd
        simp [pageLoad] at hmd
        exact hb hmd
      · intro hs
        simp [pageLoad] at hs
    · intro hl
      simp [pageLoad] at hl

/-- C2 amended witness at concrete inputs. -/
theorem c2_amended_witness :
    pageInvariant (pageLoad pFresh none none 3).1 ∧
    pageInvariant (pageLoad pFresh (some (litS "x")) none 3).1 :=
  ⟨(c2_amended pFresh none 3).2.2.1 rfl,
   (c2_amended pFresh none 3).2.2.2 (litS "x") (by decide)⟩

/-!  ## C5 — sitemap reconciliation is a pure left join -/

/-- C5: `merge_pages_with_sitemap` returns a page list of the same
length, never adding or removing pages; a page whose URL is not a key
of the mapping is returned completely unchanged (so its
`lastmod`/`priority` stay `None` if they were `None`), and a page whose
URL is a key gets exactly its `lastmod`/`priority` overwritten. -/
theorem c5_merge_left_join (pages : List Page)
    (meta : List (Str × SiteMeta)) :
    (merge_pages_with_sitemap pages meta).length = pages.length ∧
    (∀ (i : Nat) (p : Page), pages[i]? = some p →
      meta.lookup p.url = none →
      (merge_pages_with_sitemap pages meta)[i]? = some p) ∧
    (∀ (i : Nat) (p : Page) (m : SiteMeta), pages[i]? = some p →
      meta.lookup p.url = some m →
      (merge_pages_with_sitemap pages meta)[i]? =
        some { p with lastmod := m.lastmod, priority := m.priority }) := by
  refine ⟨by simp [merge_pages_with_sitemap], ?_, ?_⟩
  · intro i p hp hm
    unfold merge_pages_with_sitemap
    rw [List.getElem?_map, hp]
    simp [hm]
  · intro i p m hp hm
    unfold merge_pages_with_sitemap
    rw [List.getElem?_map, hp]
    simp [hm]

/-- C5 witness at concrete inputs: a two-page list and a one-key
mapping — the covered page is enriched, the other returned unchanged,
and the length is preserved. -/
theorem c5_witness :
    (merge_pages_with_sitemap [pPrev, pFresh]
      [(pPrev.url, { lastmod := some 3, priority := some 8 })]).length = 2 ∧
    (merge_pages_with_sitemap [pPrev, pFresh]
      [(pPrev.url, { lastmod := some 3, priority := some 8 })])[1]? =
      some pFresh ∧
    (merge_pages_with_sitemap [pPrev, pFresh]
      [(pPrev.url, { lastmod := some 3, priority := some 8 })])[0]? =
      some { pPrev with lastmod := some 3, priority := some 8 } :=
  ⟨(c5_merge_left_join [pPrev, pFresh] _).1,
   (c5_merge_left_join [pPrev, pFresh] _).2.1 1 pFresh (by decide) (by decide),
   (c5_merge_left_join [pPrev, pFresh] _).2.2 0 pPrev
     { lastmod := some 3, priority := some 8 } (by decide) (by decide)⟩

/-!  ## C6 — per-page failure isolation in `DocScraper.scrape` -/

/-- C6: `DocScraper.scrape` returns the whole input collection (same
length, element `i` being page `i` after its own load), each page's
outcome depends only on that page's own fetch result (a failing page
never aborts or affects the rest), and in the concrete
1-of-3-pages-fails scenario all three pages are returned with exactly
one having `loaded=false`. -/
theorem c6_fetch_isolation :
    (∀ fetch c now pages,
      (scrape fetch c now pages none).length = pages.length) ∧
    (∀ fetch c now pages i, (scrape fetch c now pages none)[i]? =
      (pages[i]?).map (fun p => (pageLoad p (fetch i) c now).1)) ∧
    (∀ f g c now pages i, f i = g i →
      (scrape f c now pages none)[i]? = (scrape g c now pages none)[i]?) ∧
    ((scrape fetchFail1 none 9 pages3 none).length = 3 ∧
      ((scrape fetchFail1 none 9 pages3 none).filter
        (fun p => !p.loaded)).length = 1) := by
  refine ⟨?_, ?_, ?_, by decide, by decide⟩
  · intro fetch c now pages
    exact scrapeGo_length fetch c now none pages 0
  · intro fetch c now pages i
    have h := scrapeGo_none_getElem fetch c now pages 0 i
    simpa [scrape] using h
  · intro f g c now pages i hfg
    have h1 := scrapeGo_none_getElem f c now pages 0 i
    have h2 := scrapeGo_none_getElem g c now pages 0 i
    simp only [scrape] at *
    rw [h1, h2, Nat.zero_add, hfg]

/-- C6 witness: isolation applied at a concrete input — the first page
of the 1-of-3-fails scenario ends up the same as in the all-succeed
scenario. -/
theorem c6_witness :
    (scrape fetchFail1 none 9 pages3 none)[0]? =
      (scrape fetchAllOk none 9 pages3 none)[0]? :=
  c6_fetch_isolation.2.2.1 fetchFail1 fetchAllOk none 9 pages3 0 rfl

/-!  ## C9 — `limit=0` is silently ignored by the loop guards -/

/-- C9: because the guard `if limit and i >= limit` treats `0` as
falsy, `scrape` and `chunk_pages` with `limit=0` process every page
exactly as with no limit; only `limit ≥ 1` caps processing at the first
`limit` pages (later pages are returned unprocessed by `scrape` and
contribute no chunks). -/
theorem c9_limit_zero_ignored :
    (∀ fetch c now pages,
      scrape fetch c now pages (some 0) = scrape fetch c now pages none) ∧
    (∀ hs rs pages,
      chunk_pages hs rs pages (some 0) = chunk_pages hs rs pages none) ∧
    (∀ fetch c now pages l, 1 ≤ l →
      scrape fetch c now pages (some l) =
        scrape fetch c now (pages.take l) none ++ pages.drop l) ∧
    (∀ hs rs pages l, 1 ≤ l →
      chunk_pages hs rs pages (some l) =
        chunk_pages hs rs (pages.take l) none) := by
  refine ⟨?_, ?_, ?_, ?_⟩
  · intro fetch c now pages
    have key : ∀ (ps : List Page) (i : Nat),
        scrapeGo fetch c now (some 0) i ps =
          scrapeGo fetch c now none i ps := by
      intro ps
      induction ps with
      | nil => intro i; rfl
      | cons p ps ih =>
        intro i
        rw [scrapeGo, scrapeGo, limitHit_zero, limitHit_none]
        simp only [Bool.false_eq_true, if_false]
        rw [ih]
    exact key pages 0
  · intro hs rs pages
    have key : ∀ (ps : List Page) (i : Nat),
        chunkPagesGo hs rs (some 0) i ps =
          chunkPagesGo hs rs none i ps := by
      intro ps
      induction ps with
      | nil => intro i; rfl
      | cons p ps ih =>
        intro i
        rw [chunkPagesGo, chunkPagesGo, limitHit_zero, limitHit_none]
        simp only [Bool.false_eq_true, if_false]
        rw [ih]
    exact key pages 0
  · intro fetch c now pages l hl
    have h := scrapeGo_cap fetch c now l hl pages 0 hl
    simpa [scrape] using h
  · intro hs rs pages l hl
    have h := chunkPagesGo_cap hs rs l hl pages 0 hl
    simpa [chunk_pages] using h

/-- C9 witness: `limit=0` and `limit=1` applied at concrete inputs. -/
theorem c9_witness :
    scrape fetchFail1 none 9 pages3 (some 0) =
      scrape fetchFail1 none 9 pages3 none ∧
    chunk_pages headerSplit recSplitSingle pages3 (some 0) =
      chunk_pages headerSplit recSplitSingle pages3 none ∧
    scrape fetchFail1 none 9 pages3 (some 1) =
      scrape fetchFail1 none 9 (pages3.take 1) none ++ pages3.drop 1 ∧
    chunk_pages headerSplit recSplitSingle pages3 (some 1) =
      chunk_pages headerSplit recSplitSingle (pages3.take 1) none :=
  ⟨c9_limit_zero_ignored.1 fetchFail1 none 9 pages3,
   c9_limit_zero_ignored.2.1 headerSplit recSplitSingle pages3,
   c9_limit_zero_ignored.2.2.1 fetchFail1 none 9 pages3 1 (by decide),
   c9_limit_zero_ignored.2.2.2 headerSplit recSplitSingle pages3 1
     (by decide)⟩

/-!  ## C3 — sitemap extraction error handling -/

/-- C3 counterexample: a sitemap document that fetches successfully but
fails to parse does **not** fail soft — the parse error propagates out
of `extract_metadata_from_sitemap` instead of yielding the empty
mapping (`ET.fromstring` is outside any try/except). -/
theorem c3_counterexample :
    extract_metadata_from_sitemap (some (litS "notxml"))
      (Except.error (litS "ParseError")) (fun _ => none) (fun _ => none) =
      Except.error (litS "ParseError") ∧
    ∀ m : List (Str × SiteMeta),
      (Except.error (litS "ParseError") : Except Str _) ≠ Except.ok m :=
  ⟨rfl, fun _ h => Except.noConfusion h⟩

/-- Every entry whose `loc` element is present folds without error. -/
theorem sitemapFold_ok (pd pf : Str → Option Nat) :
    ∀ (entries : List UrlEntry) (acc : List (Str × SiteMeta)),
      (∀ e ∈ entries, ∃ t, e.loc = some t) →
      ∃ m, entries.foldlM (sitemapEntryStep pd pf) acc = Except.ok m := by
  intro entries
  induction entries with
  | nil => intro acc _; exact ⟨acc, rfl⟩
  | cons e es ih =>
    intro acc h
    obtain ⟨t, ht⟩ := h e (List.mem_cons_self e es)
    have hs : ∀ x ∈ es, ∃ t, x.loc = some t :=
      fun x hx => h x (List.mem_cons_of_mem e hx)
    cases t with
    | none =>
      simp only [List.foldlM_cons, sitemapEntryStep, ht]
      exact ih acc hs
    | some tv =>
      by_cases hv : tv = []
      · simp only [List.foldlM_cons, sitemapEntryStep, ht, hv, if_pos rfl]
        exact ih acc hs
      · simp only [List.foldlM_cons, sitemapEntryStep, ht, if_neg hv]
        exact ih _ hs

/-- C3 (amended): `extract_metadata_from_sitemap` fails soft on a fetch
error (empty mapping), but an XML parse error of the fetched document
propagates as an uncaught exception rather than yielding the empty
mapping.  Per-entry tolerance does hold: for an entry with a `loc`
element, a malformed last-modified date or malformed priority value
(its parser yielding nothing) leaves the corresponding field absent
without raising. -/
theorem c3_amended :
    (∀ parsed pd pf,
      extract_metadata_from_sitemap none parsed pd pf = Except.ok []) ∧
    (∀ body entries pd pf, body ≠ [] →
      (∀ e ∈ entries, ∃ t, e.loc = some t) →
      ∃ m, extract_metadata_from_sitemap (some body) (Except.ok entries)
        pd pf = Except.ok m) ∧
    (∀ body t s1 s2, body ≠ [] → t ≠ [] → s1 ≠ [] → s2 ≠ [] →
      extract_metadata_from_sitemap (some body)
        (Except.ok [⟨some (some t), some s1, some s2⟩])
        (fun _ => none) (fun _ => none) =
      Except.ok [(trimS t, { lastmod := none, priority := none })]) := by
  refine ⟨fun _ _ _ => rfl, ?_, ?_⟩
  · intro body entries pd pf hb h
    simp only [extract_metadata_from_sitemap]
    rw [if_neg hb]
    exact sitemapFold_ok pd pf entries [] h
  · intro body t s1 s2 hb ht h1 h2
    simp only [extract_metadata_from_sitemap]
    rw [if_neg hb]
    simp only [List.foldlM_cons, sitemapEntryStep, if_neg ht, if_neg h1,
      if_neg h2, List.foldlM_nil]
    rfl

/-- C3 amended witness at concrete inputs. -/
theorem c3_witness :
    extract_metadata_from_sitemap none
      (Except.error (litS "unused")) (fun _ => none) (fun _ => none) =
      Except.ok [] ∧
    extract_metadata_from_sitemap (some (litS "<urlset/>"))
      (Except.ok [⟨some (some (litS " https://x/a ")),
        some (litS "not-a-date"), some (litS "not-a-float")⟩])
      (fun _ => none) (fun _ => none) =
      Except.ok [(trimS (litS " https://x/a "),
        { lastmod := none, priority := none })] :=
  ⟨c3_amended.1 (Except.error (litS "unused")) (fun _ => none)
      (fun _ => none),
   c3_amended.2.2 (litS "<urlset/>") (litS " https://x/a ")
     (litS "not-a-date") (litS "not-a-float") (by decide) (by decide)
     (by decide) (by decide)⟩

/-!  ## C1 — chunk indices restart per Stage-1 segment -/

/-- C1 counterexample: on a two-heading document each Stage-1 segment
fits in one window, yet `chunk` emits indices `[0, 0]` — the counter
restarts for each heading segment, so the page-wide indices are not
`0..n-1`. -/
theorem c1_counterexample :
    ¬ contiguousIndexes (chunk headerSplit recSplitSingle doc2seg []) ∧
    chunkIndexList (chunk headerSplit recSplitSingle doc2seg []) =
      [some 0, some 0] :=
  ⟨by decide, by decide⟩

/-- C1 (amended): `chunk` assigns `chunk_index` per Stage-1 segment,
not per page: for a non-empty document the emitted index column is the
concatenation, over the segments in order, of `0..k-1` where `k` is the
number of windows of that segment — the counter restarts at each
segment, so indices are page-contiguous only when at most one segment
emits windows. -/
theorem c1_amended_per_segment (hs : Str → List Doc) (rs : Doc → List Doc)
    (text : Str) (md : List (Str × Str)) (h : text ≠ []) :
    chunkIndexList (chunk hs rs text md) =
      (hs text).flatMap (fun seg =>
        (List.range (rs seg).length).map some) := by
  unfold chunk chunkIndexList
  rw [if_neg h, List.map_flatMap]
  refine congrArg _ (funext fun seg => ?_)
  rw [List.map_map]
  show ((rs seg).enum).map (Option.some ∘ Prod.fst) = _
  rw [← List.map_map, List.enum_map_fst]

/-- C1 amended witness at the concrete two-heading document. -/
theorem c1_witness :
    chunkIndexList (chunk headerSplit recSplitSingle doc2seg []) =
      (headerSplit doc2seg).flatMap (fun seg =>
        (List.range (recSplitSingle seg).length).map some) :=
  c1_amended_per_segment headerSplit recSplitSingle doc2seg [] (by decide)

/-!  ## C7 — which pages `chunk_pages` excludes -/

/-- C7 counterexample: a page with `loaded=false` but a retained
markdown body is **not** excluded from `chunk_pages` — the skip is
keyed on `md`, not on the `loaded` flag. -/
theorem c7_counterexample :
    pStale.loaded = false ∧
    chunk_pages headerSplit recSplitSingle [pStale] none ≠ [] :=
  ⟨rfl, by decide⟩

/-- C7 (amended): `chunk_pages` excludes exactly the pages whose `md`
is absent or empty (its skip tests `md`, not the `loaded` flag), and
`chunk` on an empty input document returns the empty chunk sequence
(a warning, not an error). -/
theorem c7_amended (hs : Str → List Doc) (rs : Doc → List Doc)
    (pages : List Page) (meta : List (Str × Str)) :
    chunk_pages hs rs pages none =
      (pages.filter mdOk).flatMap (fun p =>
        chunk hs rs (mdText p) (to_metadata p)) ∧
    chunk hs rs [] meta = [] := by
  constructor
  · unfold chunk_pages
    rw [chunkPagesGo_none_unfold hs rs pages 0]
    induction pages with
    | nil => rfl
    | cons p ps ih =>
      rw [List.flatMap_cons, List.filter_cons]
      by_cases h : mdOk p = true
      · simp [h, ih]
      · simp only [Bool.not_eq_true] at h
        simp [h, ih]
  · rfl

/-!  ## C8 — the end-to-end HTML table scenario -/

/-- C8: cleaning a markdown input holding an HTML table with 2 header
cells and 2 data rows yields a `**Table:**` line, the pipe-delimited
header row, a 2-column dash separator, the 2 pipe-delimited data rows,
and no `<table>` tag; the separator block is skipped entirely when no
header cells exist, and a cell spanning several text nodes is joined by
a single space. -/
theorem c8_table_scenario :
    clean_markdown_content tblIn = tblOut ∧
    containsSub (litS "<table>") (clean_markdown_content tblIn) = false ∧
    (∀ rows, tableLines [] rows =
      litS "**Table:**" :: rows.map (fun cs => joinSep (litS " | ") cs)) ∧
    getTextSep (litS " ") (Node.elem (litS "td")
      [Node.text (litS "x "), Node.elem (litS "b") [Node.text (litS " y")]])
      = litS "x y" :=
  ⟨by decide, by decide, fun rows => by simp [tableLines], by decide⟩

/-!  ## C4 — idempotence of `clean`

Infrastructure: Python-strip (`trimS`) algebra, identity of the HTML
round trip on markup-free text, and identity of the directive `re.sub`
on brace-free text. -/

theorem splitOnC_no_sep (sep : Char) (l : Str) (h : sep ∉ l) :
    splitOnC sep l = [l] := by
  induction l with
  | nil => rfl
  | cons c l ih =>
    have hc : ¬(c = sep) := fun he => h (he ▸ List.mem_cons_self c l)
    have hl : sep ∉ l := fun hm => h (List.mem_cons_of_mem c hm)
    simp only [splitOnC, hc, if_false, ih hl]

theorem ltrim_cons_ws (c : Char) (s : Str) (h : wsC c = true) :
    ltrim (c :: s) = ltrim s := by
  simp [ltrim, List.dropWhile_cons, h]

theorem ltrim_cons_not_ws (c : Char) (s : Str) (h : wsC c = false) :
    ltrim (c :: s) = c :: s := by
  simp [ltrim, List.dropWhile_cons, h]

theorem ltrim_idem (s : Str) : ltrim (ltrim s) = ltrim s := by
  induction s with
  | nil => rfl
  | cons c s ih =>
    by_cases h : wsC c = true
    · rw [ltrim_cons_ws c s h, ih]
    · have h2 : wsC c = false := by simpa using h
      rw [ltrim_cons_not_ws c s h2, ltrim_cons_not_ws c s h2]

theorem ltrim_allWs (s : Str) (h : ∀ c ∈ s, wsC c = true) : ltrim s = [] := by
  induction s with
  | nil => rfl
  | cons c s ih =>
    rw [ltrim_cons_ws c s (h c (List.mem_cons_self c s))]
    exact ih (fun d hd => h d (List.mem_cons_of_mem c hd))

theorem mem_ltrim (s : Str) (c : Char) (h : c ∈ ltrim s) : c ∈ s := by
  induction s with
  | nil => exact h
  | cons a s ih =>
    by_cases ha : wsC a = true
    · rw [ltrim_cons_ws a s ha] at h
      exact List.mem_cons_of_mem a (ih h)
    · have h2 : wsC a = false := by simpa using ha
      rw [ltrim_cons_not_ws a s h2] at h
      exact h

theorem rtrim_eq_nil_iff (s : Str) :
    rtrim s = [] ↔ ∀ c ∈ s, wsC c = true := by
  induction s with
  | nil => simp [rtrim]
  | cons c s ih =>
    rw [rtrim]
    cases hr : rtrim s with
    | nil =>
      have hs : ∀ d ∈ s, wsC d = true := ih.mp hr
      by_cases hc : wsC c = true
      · simp only [hc, if_true]
        constructor
        · intro _ d hd
          rcases List.mem_cons.mp hd with h1 | h1
          · exact h1 ▸ hc
          · exact hs d h1
        · intro _; trivial
      · simp only [hc]
        constructor
        · intro h1; exact absurd h1 (by simp)
        · intro h1
          exact absurd (h1 c (List.mem_cons_self c s)) hc
    | cons a r =>
      constructor
      · intro h1; exact absurd h1 (by simp)
      · intro h1
        have : rtrim s = [] :=
          ih.mpr (fun d hd => h1 d (List.mem_cons_of_mem c hd))
        rw [this] at hr; exact absurd hr (by simp)

theorem mem_rtrim (s : Str) (c : Char) (h : c ∈ rtrim s) : c ∈ s := by
  induction s with
  | nil => exact h
  | cons a s ih =>
    rw [rtrim] at h
    cases hr : rtrim s with
    | nil =>
      rw [hr] at h
      by_cases ha : wsC a = true
      · simp [ha] at h
      · simp only [ha, Bool.false_eq_true, if_false] at h
        rcases List.mem_cons.mp h with h1 | h1
        · exact h1 ▸ List.mem_cons_self a s
        · simp at h1
    | cons b r =>
      rw [hr] at h
      rcases List.mem_cons.mp h with h1 | h1
      · exact h1 ▸ List.mem_cons_self a s
      · exact List.mem_cons_of_mem a (ih (hr ▸ h1))

theorem rtrim_idem (s : Str) : rtrim (rtrim s) = rtrim s := by
  induction s with
  | nil => rfl
  | cons c s ih =>
    rw [rtrim]
    cases hr : rtrim s with
    | nil =>
      by_cases hc : wsC c = true
      · simp [hc, rtrim]
      · simp only [hc, Bool.false_eq_true, if_false]
        simp [rtrim, hc]
    | cons a r =>
      rw [hr] at ih
      rw [rtrim, ih]

theorem ltrim_rtrim_comm (s : Str) :
    ltrim (rtrim s) = rtrim (ltrim s) := by
  induction s with
  | nil => rfl
  | cons c s ih =>
    by_cases hw : wsC c = true
    · rw [ltrim_cons_ws c s hw, rtrim]
      cases hr : rtrim s with
      | nil =>
        simp only [hw, if_true]
        have hs : ∀ d ∈ s, wsC d = true := (rtrim_eq_nil_iff s).mp hr
        rw [ltrim_allWs s hs]
        rfl
      | cons a r =>
        rw [ltrim_cons_ws c (a :: r) hw, ← hr, ih]
    · have hw2 : wsC c = false := by simpa using hw
      cases hr : rtrim s with
      | nil =>
        have h1 : rtrim (c :: s) = [c] := by
          rw [rtrim, hr]
          simp [hw2]
        have h2 : ltrim (c :: s) = c :: s := ltrim_cons_not_ws c s hw2
        rw [h1, ltrim_cons_not_ws c [] hw2, h2, h1]
      | cons a r =>
        have h1 : rtrim (c :: s) = c :: a :: r := by rw [rtrim, hr]
        have h2 : ltrim (c :: s) = c :: s := ltrim_cons_not_ws c s hw2
        rw [h1, ltrim_cons_not_ws c (a :: r) hw2, h2, h1]

theorem trimS_idem (s : Str) : trimS (trimS s) = trimS s := by
  unfold trimS
  rw [ltrim_rtrim_comm (ltrim s), ltrim_idem, rtrim_idem]


theorem mem_trimS (s : Str) (c : Char) (h : c ∈ trimS s) : c ∈ s := by
  exact mem_ltrim s c (mem_rtrim (ltrim s) c h)


theorem noHtml_mem (s : Str) (h : noHtml s = true) :
    ∀ c ∈ s, isHtmlSpecial c = false := by
  intro c hc
  have := List.all_eq_true.mp h c hc
  simpa using this

theorem noHtml_of_mem (s : Str)
    (h : ∀ c ∈ s, isHtmlSpecial c = false) : noHtml s = true := by
  apply List.all_eq_true.mpr
  intro c hc
  simpa using h c hc

theorem escapeText_id (s : Str)
    (h : ∀ c ∈ s, isHtmlSpecial c = false) : escapeText s = s := by
  induction s with
  | nil => rfl
  | cons c s ih =>
    have hc := h c (List.mem_cons_self c s)
    simp only [isHtmlSpecial, Bool.or_eq_false_iff, decide_eq_false_iff_not]
      at hc
    unfold escapeText
    rw [List.flatMap_cons]
    have he : escapeChar c = [c] := by
      unfold escapeChar
      rw [if_neg hc.2, if_neg hc.1.1, if_neg hc.1.2]
    rw [he]
    have ih2 := ih (fun d hd => h d (List.mem_cons_of_mem c hd))
    unfold escapeText at ih2
    rw [ih2]
    rfl

theorem convert_id (s : Str) (h : noHtml s = true) :
    convert_html_tables_to_markdown s = s := by
  have hmem := noHtml_mem s h
  have hlt : '<' ∉ s := by
    intro hm
    have := hmem '<' hm
    simp [isHtmlSpecial] at this
  by_cases hs : s = []
  · subst hs
    rfl
  · have h1 : splitOnC '<' s = [s] := splitOnC_no_sep '<' s hlt
    have h2 : tokenize s = [Tok.text s] := by
      unfold tokenize
      rw [h1]
      simp [hs]
    unfold convert_html_tables_to_markdown parseHtml
    rw [h2]
    show renderList (convertNodes (buildToks [Tok.text s]
      [(litS "[document]", [])])) = s
    simp only [buildToks, pushNode, finishGo, mergeTextToks, convertNodes,
      convertNode, renderList, render, List.nil_append, List.reverse_cons,
      List.reverse_nil, List.append_nil]
    exact escapeText_id s hmem

theorem noHtml_trimS (z : Str) (h : noHtml z = true) :
    noHtml (trimS z) = true :=
  noHtml_of_mem _ (fun c hc => noHtml_mem z h c (mem_trimS z c hc))

theorem noBrace_mem (s : Str) (h : noBrace s = true) : '\x7b' ∉ s := by
  intro hm
  have := List.all_eq_true.mp h _ hm
  simp at this

theorem noBrace_of_mem (s : Str) (h : '\x7b' ∉ s) : noBrace s = true := by
  apply List.all_eq_true.mpr
  intro c hc
  by_cases he : c = '\x7b'
  · exact absurd (he ▸ hc) h
  · simp [he]

theorem noBrace_trimS (z : Str) (h : noBrace z = true) :
    noBrace (trimS z) = true :=
  noBrace_of_mem _ (fun hm => noBrace_mem z h (mem_trimS z _ hm))

/-- The scan only ever copies characters of its input. -/
theorem mem_rdGo (x : Str) :
    ∀ (k : Nat) (b : Bool) (c : Char), c ∈ rdGo k b x → c ∈ x := by
  induction x with
  | nil => intro k b c h; simp [rdGo] at h
  | cons a u ih =>
    intro k b c h
    match k with
    | 0 =>
      rw [rdGo] at h
      split at h
      · exact List.mem_cons_of_mem a (ih _ _ c h)
      · rcases List.mem_cons.mp h with h1 | h1
        · exact h1 ▸ List.mem_cons_self _ _
        · exact List.mem_cons_of_mem a (ih 0 _ c h1)
    | Nat.succ k =>
      rw [rdGo] at h
      exact List.mem_cons_of_mem a (ih k _ c h)

/-- Without a `\x7b` the pattern's literal `\x7b%` can never be found,
so no position matches. -/
theorem matchDirAt_none (s : Str) (h : '\x7b' ∉ s) : matchDirAt s = none := by
  have hp : isPrefC dirL (s.drop (s.takeWhile wsC).length) = false := by
    cases hr : s.drop (s.takeWhile wsC).length with
    | nil => rfl
    | cons b bs =>
      have hb : ¬('\x7b' = b) := by
        intro he
        apply h
        rw [he]
        exact List.drop_subset _ s (hr ▸ List.mem_cons_self b bs)
      simp [dirL, isPrefC, hb]
  simp only [matchDirAt, hp, Bool.false_eq_true, if_false]

/-- The directive `re.sub` is the identity on brace-free text. -/
theorem rdGo_id (x : Str) (h : '\x7b' ∉ x) : ∀ b, rdGo 0 b x = x := by
  induction x with
  | nil => intro b; rfl
  | cons a u ih =>
    intro b
    have hu : '\x7b' ∉ u := fun hc => h (List.mem_cons_of_mem a hc)
    have hif : (if b then matchDirAt (a :: u) else none) = none := by
      cases b
      · rfl
      · simpa using matchDirAt_none (a :: u) h
    rw [rdGo, hif]
    show a :: rdGo 0 (decide (a = '\n')) u = a :: u
    rw [ih hu]

theorem removeDir_id_noBrace (x : Str) (h : noBrace x = true) :
    removeDirectiveLines x = x :=
  rdGo_id x (noBrace_mem x h) true

/-!  The C4 claim theorems. -/

/-- C4 counterexample: `clean` is not idempotent — converting a table
whose only cell text is a directive emits that text as a directive-only
line, which the stripping step removes on the second pass; and even on
HTML-free input, removing an inner directive can expose a
whitespace-bridged multi-line directive span that the second pass then
deletes. -/
theorem c4_counterexample :
    clean_markdown_content (clean_markdown_content cx4) ≠
      clean_markdown_content cx4 ∧
    noHtml bx = true ∧
    clean_markdown_content (clean_markdown_content bx) ≠
      clean_markdown_content bx :=
  ⟨by decide, by decide, by decide⟩

/-- C4 (amended): `clean` is idempotent on every markdown input free of
the HTML-special characters `<`, `>`, `&` and of the brace character
opening a directive (on such input the directive `re.sub` and the table
conversion are both the identity, so `clean` is just a strip);
idempotence fails in general, both through tables and through
whitespace-bridged multi-line directive spans, as the counterexample
shows. -/
theorem c4_amended (x : Str) (h1 : noHtml x = true)
    (h2 : noBrace x = true) :
    clean_markdown_content (clean_markdown_content x) =
      clean_markdown_content x := by
  have hcl : ∀ y : Str, noHtml y = true → noBrace y = true →
      clean_markdown_content y = trimS y := by
    intro y hy1 hy2
    unfold clean_markdown_content
    rw [removeDir_id_noBrace y hy2, convert_id y hy1]
  rw [hcl x h1 h2, hcl (trimS x) (noHtml_trimS x h1) (noBrace_trimS x h2),
    trimS_idem]

/-- C4 amended witness: a concrete markup-free input with edge
whitespace, cleaned twice. -/
theorem c4_witness :
    noHtml w4 = true ∧ noBrace w4 = true ∧
    clean_markdown_content (clean_markdown_content w4) =
      clean_markdown_content w4 :=
  ⟨by decide, by decide, c4_amended w4 (by decide) (by decide)⟩


end Gitbook
